import Mathlib

/-!
Shallow embedding of the atlantis-supervisor container resource registry
(package `containers`): the single-threaded actor that owns the container
map, the free-slot pool and the used-resource counters, together with its
deterministic port-allocation scheme and its startup load phase.

Machine arithmetic is embedded over `Nat`: Go `uint16` operations reduce
modulo 2^16 and Go `uint`/`uint64` operations reduce modulo 2^64 (the word
size on the 64-bit platforms the supervisor targets).
-/

namespace Atlantis

/-- Modulus of Go `uint16` arithmetic. -/
def U16 : Nat := 65536

/-- Modulus of Go `uint` / `uint64` arithmetic (64-bit platform). -/
def UW : Nat := 18446744073709551616

/-- Go `uint16` addition (wraps modulo 2^16). -/
def add16 (a b : Nat) : Nat := (a + b) % U16

/-- Go `uint16` multiplication (wraps modulo 2^16). -/
def mul16 (a b : Nat) : Nat := (a * b) % U16

/-- Go `uint16` subtraction `a - b` (wraps modulo 2^16). -/
def sub16 (a b : Nat) : Nat := (a + (U16 - b % U16)) % U16

/-- Go `uint` addition (wraps modulo 2^64). -/
def addW (a b : Nat) : Nat := (a + b) % UW

/-- Go `uint` subtraction `a - b` (wraps modulo 2^64). -/
def subW (a b : Nat) : Nat := (a + (UW - b % UW)) % UW

/-- `types.Manifest`, restricted to the two fields the registry reads:
`CPUShares uint` and `MemoryLimit uint`. -/
structure Manifest where
  cpuShares : Nat
  memoryLimit : Nat
deriving DecidableEq

/-- The registry's `Container` record, restricted to the fields the
registry itself assigns and reads: `Id`, `PrimaryPort`, `SSHPort`,
`SecondaryPorts` and `Manifest`. -/
structure Container where
  id : String
  primaryPort : Nat
  sshPort : Nat
  secondaryPorts : List Nat
  manifest : Manifest
deriving DecidableEq

/-- The configuration set by `Init`: `NumContainers`, `NumSecondaryPorts`,
`MinPort` are `uint16`; `CPUShares` and `MemoryLimit` are `uint`. -/
structure Config where
  numContainers : Nat
  numSecondaryPorts : Nat
  minPort : Nat
  cpuShares : Nat
  memoryLimit : Nat
deriving DecidableEq

/-- The configuration values lie within their Go integer types. -/
def Config.Wf (cfg : Config) : Prop :=
  cfg.numContainers < U16 ∧ cfg.numSecondaryPorts < U16 ∧ cfg.minPort < U16 ∧
    cfg.cpuShares < UW ∧ cfg.memoryLimit < UW

/-- The manifest values lie within Go `uint`. -/
def Manifest.Wf (m : Manifest) : Prop :=
  m.cpuShares < UW ∧ m.memoryLimit < UW

/-- The configuration validation performed by `Init`:
`uint64(MinPort)+(uint64(NumSecondaryPorts)+2)*uint64(NumContainers)-1 > 65535`,
evaluated in wrapping `uint64` arithmetic. The additions and the
multiplication cannot overflow for `uint16` operands, so only the final
`-1` is reduced (it wraps exactly when the preceding sum is `0`). -/
def initCheckFails (cfg : Config) : Bool :=
  65535 <
    (cfg.minPort + (cfg.numSecondaryPorts + 2) * cfg.numContainers + (UW - 1)) % UW

/-- Go map read `containers[id]` (nil for an absent key). -/
def mapGet (l : List (String × Container)) (id : String) : Option Container :=
  match l with
  | [] => none
  | (k, c) :: rest => if k = id then some c else mapGet rest id

/-- Go map `delete(containers, id)`: removes the (unique) entry for `id`. -/
def mapDelete (l : List (String × Container)) (id : String) :
    List (String × Container) :=
  match l with
  | [] => []
  | (k, c) :: rest => if k = id then rest else (k, c) :: mapDelete rest id

/-- The registry state owned by the `containerManager` goroutine:
`containers`, `ports` (free slot indices), `usedCPUShares`,
`usedMemoryLimit`. `saveCount` counts the invocations of the persistence
routine `save()` (defined outside the registry file); it increases by one
exactly where the registry source calls `save()`. -/
structure RState where
  containers : List (String × Container)
  ports : List Nat
  usedCPUShares : Nat
  usedMemoryLimit : Nat
  saveCount : Nat
deriving DecidableEq

/-- The error cases of `reserve`, carrying the data interpolated into the
corresponding Go error strings. -/
inductive ReserveErr where
  | capacityExceeded
  | duplicateId (id : String)
  | insufficientCPU (requested available : Nat)
  | insufficientMemory (requested available : Nat)
deriving DecidableEq

/-- The `ReserveResp` carried back to the caller, together with the
post-state of the registry. -/
structure ReserveOut where
  state : RState
  container : Option Container
  err : Option ReserveErr
deriving DecidableEq

/-- The `Container` record the source constructs for a popped slot index
`port`: `PrimaryPort = MinPort + port`, `SSHPort = MinPort + NumContainers
+ port` and `SecondaryPorts[i] = MinPort + NumContainers * (i + 2) + port`,
all in `uint16` arithmetic. -/
def mkContainer (cfg : Config) (id : String) (m : Manifest) (port : Nat) : Container :=
  { id := id
    primaryPort := add16 cfg.minPort port
    sshPort := add16 (add16 cfg.minPort cfg.numContainers) port
    secondaryPorts := (List.range cfg.numSecondaryPorts).map
      (fun i => add16 (add16 cfg.minPort (mul16 cfg.numContainers (add16 i 2))) port)
    manifest := m }

/-- The actor-side handler `reserve(req)`. Returns `none` exactly on the
path where the Go code would evaluate `ports[0]` on an empty slice and
panic (unreachable from well-formed states). On every other path it
returns the post-state and the response. The source calls no persistence
routine on this handler, so `saveCount` is unchanged. -/
def reserve (cfg : Config) (st : RState) (id : String) (m : Manifest) :
    Option ReserveOut :=
  if cfg.numContainers ≤ st.containers.length then
    some ⟨st, none, some .capacityExceeded⟩
  else if (mapGet st.containers id).isSome then
    some ⟨st, none, some (.duplicateId id)⟩
  else if cfg.cpuShares < addW m.cpuShares st.usedCPUShares then
    some ⟨st, none,
      some (.insufficientCPU m.cpuShares (subW cfg.cpuShares st.usedCPUShares))⟩
  else if cfg.memoryLimit < addW m.memoryLimit st.usedMemoryLimit then
    some ⟨st, none,
      some (.insufficientMemory m.memoryLimit (subW cfg.memoryLimit st.usedMemoryLimit))⟩
  else
    match st.ports with
    | [] => none
    | port :: rest =>
      some ⟨{ containers := st.containers ++ [(id, mkContainer cfg id m port)]
              ports := rest
              usedCPUShares := addW st.usedCPUShares m.cpuShares
              usedMemoryLimit := addW st.usedMemoryLimit m.memoryLimit
              saveCount := st.saveCount },
            some (mkContainer cfg id m port), none⟩

/-- The actor-side handler `teardown(req)`. The container's own teardown
hook is external to the registry and mutates no registry state. On the
success path the source appends `PrimaryPort - MinPort` (a `uint16`
subtraction) to the pool, decrements both counters, deletes the entry and
calls `save()`. -/
def teardown (cfg : Config) (st : RState) (id : String) : RState × Bool :=
  match mapGet st.containers id with
  | none => (st, false)
  | some c =>
    ({ containers := mapDelete st.containers id
       ports := st.ports ++ [sub16 c.primaryPort cfg.minPort]
       usedCPUShares := subW st.usedCPUShares c.manifest.cpuShares
       usedMemoryLimit := subW st.usedMemoryLimit c.manifest.memoryLimit
       saveCount := st.saveCount + 1 },
     true)

/-- Startup recomputation of `usedCPUShares`: the Go loop
`usedCPUShares += cont.Manifest.CPUShares` over the loaded map, with
wrapping `uint` accumulation starting from `0`. -/
def recomputeCPU (l : List (String × Container)) : Nat :=
  l.foldl (fun acc p => addW acc p.2.manifest.cpuShares) 0

/-- Startup recomputation of `usedMemoryLimit`, likewise. -/
def recomputeMem (l : List (String × Container)) : Nat :=
  l.foldl (fun acc p => addW acc p.2.manifest.memoryLimit) 0

/-- The load phase of `containerManager`. The two snapshots are the
results of `retrieveObject` on the `containers` and `ports` files
(persistence is outside the registry file; a failed or absent snapshot is
`none`). With no container snapshot the map starts empty; with no port
snapshot the pool is `0, 1, ..., NumContainers-1`; the counters are always
recomputed from the loaded map. -/
def loadState (cfg : Config) (containersSnap : Option (List (String × Container)))
    (portsSnap : Option (List Nat)) : RState :=
  let cs := containersSnap.getD []
  { containers := cs
    ports := portsSnap.getD (List.range cfg.numContainers)
    usedCPUShares := recomputeCPU cs
    usedMemoryLimit := recomputeMem cs
    saveCount := 0 }

/-- The fresh start state: no snapshot loads. -/
def initState (cfg : Config) : RState :=
  loadState cfg none none

/-- Registry states reachable from a fresh start by serialized
`reserve`/`teardown` requests whose manifests satisfy `P`. -/
inductive ReachP (cfg : Config) (P : Manifest → Prop) : RState → Prop where
  | init : ReachP cfg P (initState cfg)
  | reserveStep {st : RState} {id : String} {m : Manifest} {out : ReserveOut} :
      ReachP cfg P st → P m → reserve cfg st id m = some out →
      ReachP cfg P out.state
  | teardownStep {st : RState} (id : String) :
      ReachP cfg P st → ReachP cfg P (teardown cfg st id).1

/-- Registry states reachable from a fresh start by arbitrary serialized
`reserve`/`teardown` requests. -/
def Reach (cfg : Config) (st : RState) : Prop :=
  ReachP cfg (fun _ => True) st

/-- The slot index the source recovers from a container:
`PrimaryPort - MinPort` in `uint16` arithmetic. -/
def slotOf (cfg : Config) (c : Container) : Nat :=
  sub16 c.primaryPort cfg.minPort

/-- The recovered slot indices of the active containers, in map order. -/
def slots (cfg : Config) (l : List (String × Container)) : List Nat :=
  l.map (fun p => slotOf cfg p.2)

/-- All port numbers held by one container. -/
def portsOf (c : Container) : List Nat :=
  c.primaryPort :: c.sshPort :: c.secondaryPorts

/-- Exact sum of `Manifest.CPUShares` over the active containers. -/
def sumCPU (l : List (String × Container)) : Nat :=
  (l.map (fun p => p.2.manifest.cpuShares)).sum

/-- Exact sum of `Manifest.MemoryLimit` over the active containers. -/
def sumMem (l : List (String × Container)) : Nat :=
  (l.map (fun p => p.2.manifest.memoryLimit)).sum

/-- Configuration exercising the save-omission run: one slot, one CPU
share, one MB. -/
def saveCfg : Config := ⟨1, 0, 1000, 1, 1⟩

/-- Degenerate configuration for the `Init` validation: `MinPort = 0`,
`NumContainers = 0`. -/
def degenerateCfg : Config := ⟨0, 0, 0, 10, 10⟩

/-- Structural invariant of the registry: active-container keys are
distinct, the recovered slot indices of the active containers together
with the free pool are a permutation of `0, ..., NumContainers - 1`, and
every active container carries exactly the port assignments `reserve`
derives from its recovered slot index. -/
structure StructInv (cfg : Config) (st : RState) : Prop where
  keysNodup : (st.containers.map Prod.fst).Nodup
  slotsPerm :
    List.Perm (slots cfg st.containers ++ st.ports) (List.range cfg.numContainers)
  portFormulas : ∀ p ∈ st.containers,
    p.2.primaryPort = add16 cfg.minPort (slotOf cfg p.2) ∧
    p.2.sshPort = add16 (add16 cfg.minPort cfg.numContainers) (slotOf cfg p.2) ∧
    p.2.secondaryPorts = (List.range cfg.numSecondaryPorts).map
      (fun i => add16 (add16 cfg.minPort (mul16 cfg.numContainers (add16 i 2)))
        (slotOf cfg p.2))

/-- Configuration for the wrapping-counter run: two slots, 10 CPU shares,
10 MB, MinPort 1000, no secondary ports. -/
def wrapCfg : Config := ⟨2, 0, 1000, 10, 10⟩

/-- A manifest requesting `2^64 - 5` CPU shares (a legal Go `uint`). -/
def wrapManifest : Manifest := ⟨18446744073709551611, 0⟩

/-- Post-reserve output of reserving `"a"` (5 CPU shares) from the fresh
`wrapCfg` state. -/
def wrapOut1 : ReserveOut :=
  (reserve wrapCfg (initState wrapCfg) "a" ⟨5, 0⟩).getD
    ⟨initState wrapCfg, none, none⟩

/-- Post-reserve output of then reserving `"b"` with `wrapManifest`. -/
def wrapOut2 : ReserveOut :=
  (reserve wrapCfg wrapOut1.state "b" wrapManifest).getD ⟨wrapOut1.state, none, none⟩

/-- State after then tearing down `"a"`. -/
def wrapState3 : RState := (teardown wrapCfg wrapOut2.state "a").1

/-- The container record stored for `"a"` in the wrapping-counter run. -/
def wrapCont1 : Container := mkContainer wrapCfg "a" ⟨5, 0⟩ 0

/-- The container record stored for `"b"` in the wrapping-counter run. -/
def wrapCont2 : Container := mkContainer wrapCfg "b" wrapManifest 1

/-- The port-allocation example configuration: `MinPort = 1000`,
`NumContainers = 4`, `NumSecondaryPorts = 2`. -/
def portCfg : Config := ⟨4, 2, 1000, 100, 100⟩

/-- Output of reserving `"a"` (slot 0) from the fresh `portCfg` state. -/
def portOut0 : ReserveOut :=
  (reserve portCfg (initState portCfg) "a" ⟨1, 1⟩).getD
    ⟨initState portCfg, none, none⟩

/-- Output of then reserving `"b"` (slot 1). -/
def portOutB : ReserveOut :=
  (reserve portCfg portOut0.state "b" ⟨1, 1⟩).getD ⟨portOut0.state, none, none⟩

/-- Output of then reserving `"c"` (slot 2). -/
def portOutC : ReserveOut :=
  (reserve portCfg portOutB.state "c" ⟨1, 1⟩).getD ⟨portOutB.state, none, none⟩

/-- Output of then reserving `"d"` (slot 3). -/
def portOut3 : ReserveOut :=
  (reserve portCfg portOutC.state "d" ⟨1, 1⟩).getD ⟨portOutC.state, none, none⟩

/-- The container stored for slot 0 in the port-allocation example. -/
def portCont0 : Container := mkContainer portCfg "a" ⟨1, 1⟩ 0

/-- The container stored for slot 3 in the port-allocation example. -/
def portCont3 : Container := mkContainer portCfg "d" ⟨1, 1⟩ 3

theorem saveCfg_wf : saveCfg.Wf :=
  ⟨by decide, by decide, by decide, by decide, by decide⟩

theorem wrapCfg_wf : wrapCfg.Wf :=
  ⟨by decide, by decide, by decide, by decide, by decide⟩

theorem portCfg_wf : portCfg.Wf :=
  ⟨by decide, by decide, by decide, by decide, by decide⟩

theorem addW_exact {a b : Nat} (h : a + b < UW) : addW a b = a + b :=
  Nat.mod_eq_of_lt h

theorem subW_exact {a b : Nat} (hb : b ≤ a) (ha : a < UW) : subW a b = a - b := by
  unfold subW UW at *
  omega

theorem sub16_add16 {mp s : Nat} (hs : s < U16) :
    sub16 (add16 mp s) mp = s := by
  unfold sub16 add16 U16 at *
  omega

theorem mapGet_eq_none_iff (l : List (String × Container)) (id : String) :
    mapGet l id = none ↔ id ∉ l.map Prod.fst := by
  induction l with
  | nil => simp [mapGet]
  | cons p rest ih =>
    obtain ⟨k, c⟩ := p
    by_cases hk : k = id
    · subst hk
      simp [mapGet]
    · have hk2 : ¬ id = k := fun h => hk h.symm
      simp [mapGet, hk, ih, hk2]

theorem mapGet_some_split {l : List (String × Container)} {id : String}
    {c : Container} (h : mapGet l id = some c) :
    ∃ l1 l2, l = l1 ++ (id, c) :: l2 ∧ mapDelete l id = l1 ++ l2 := by
  induction l with
  | nil => simp [mapGet] at h
  | cons p rest ih =>
    obtain ⟨k, c0⟩ := p
    by_cases hk : k = id
    · subst hk
      simp [mapGet] at h
      subst h
      exact ⟨[], rest, rfl, by simp [mapDelete]⟩
    · simp [mapGet, hk] at h
      obtain ⟨l1, l2, hsplit, hdel⟩ := ih h
      exact ⟨(k, c0) :: l1, l2, by simp [hsplit], by simp [mapDelete, hk, hdel]⟩

/-- C5: Reserve evaluates its failure checks in the fixed order slot
capacity, ID uniqueness, CPU shares, memory; the first failing check
determines the returned error, and on every error path the registry state
(container map, free-slot pool and both counters) is unchanged. -/
theorem reserve_check_order (cfg : Config) (st : RState) (id : String) (m : Manifest) :
    (cfg.numContainers ≤ st.containers.length →
      reserve cfg st id m = some ⟨st, none, some .capacityExceeded⟩) ∧
    (st.containers.length < cfg.numContainers →
      ∀ c, mapGet st.containers id = some c →
        reserve cfg st id m = some ⟨st, none, some (.duplicateId id)⟩) ∧
    (st.containers.length < cfg.numContainers →
      mapGet st.containers id = none →
      cfg.cpuShares < addW m.cpuShares st.usedCPUShares →
        reserve cfg st id m = some ⟨st, none,
          some (.insufficientCPU m.cpuShares (subW cfg.cpuShares st.usedCPUShares))⟩) ∧
    (st.containers.length < cfg.numContainers →
      mapGet st.containers id = none →
      addW m.cpuShares st.usedCPUShares ≤ cfg.cpuShares →
      cfg.memoryLimit < addW m.memoryLimit st.usedMemoryLimit →
        reserve cfg st id m = some ⟨st, none,
          some (.insufficientMemory m.memoryLimit (subW cfg.memoryLimit st.usedMemoryLimit))⟩) ∧
    (∀ out, reserve cfg st id m = some out → out.err.isSome → out.state = st) := by
  refine ⟨?_, ?_, ?_, ?_, ?_⟩
  · intro h
    simp [reserve, h]
  · intro h1 c hc
    simp [reserve, Nat.not_le.2 h1, hc]
  · intro h1 h2 h3
    simp [reserve, Nat.not_le.2 h1, h2, h3]
  · intro h1 h2 h3 h4
    simp [reserve, Nat.not_le.2 h1, h2, Nat.not_lt.2 h3, h4]
  · intro out hout herr
    unfold reserve at hout
    split at hout
    · cases hout; rfl
    · split at hout
      · cases hout; rfl
      · split at hout
        · cases hout; rfl
        · split at hout
          · cases hout; rfl
          · split at hout
            · cases hout
            · cases hout
              simp at herr

/-- C6: Teardown returns false exactly when the id is not active, and
then changes nothing; on an active id it returns true, deletes the entry,
appends the container's recovered slot to the pool and decrements both
counters by the manifest values (the wrapping subtraction is exact as soon
as the counter dominates the manifest value). -/
theorem teardown_spec (cfg : Config) (st : RState) (id : String) :
    ((teardown cfg st id).2 = false ↔ mapGet st.containers id = none) ∧
    (mapGet st.containers id = none → (teardown cfg st id).1 = st) ∧
    (∀ c, mapGet st.containers id = some c →
      (teardown cfg st id).2 = true ∧
      (teardown cfg st id).1.containers = mapDelete st.containers id ∧
      (teardown cfg st id).1.ports = st.ports ++ [sub16 c.primaryPort cfg.minPort] ∧
      (teardown cfg st id).1.usedCPUShares = subW st.usedCPUShares c.manifest.cpuShares ∧
      (teardown cfg st id).1.usedMemoryLimit = subW st.usedMemoryLimit c.manifest.memoryLimit ∧
      (c.manifest.cpuShares ≤ st.usedCPUShares → st.usedCPUShares < UW →
        (teardown cfg st id).1.usedCPUShares = st.usedCPUShares - c.manifest.cpuShares) ∧
      (c.manifest.memoryLimit ≤ st.usedMemoryLimit → st.usedMemoryLimit < UW →
        (teardown cfg st id).1.usedMemoryLimit = st.usedMemoryLimit - c.manifest.memoryLimit)) := by
  cases hm : mapGet st.containers id with
  | none => simp [teardown, hm]
  | some c =>
    refine ⟨by simp [teardown, hm], by simp [hm], ?_⟩
    intro c0 hc0
    have hcc : c0 = c := (Option.some.inj hc0).symm
    subst hcc
    refine ⟨by simp [teardown, hm], by simp [teardown, hm], by simp [teardown, hm],
      by simp [teardown, hm], by simp [teardown, hm], ?_, ?_⟩
    · intro hle hlt
      simp [teardown, hm, subW_exact hle hlt]
    · intro hle hlt
      simp [teardown, hm, subW_exact hle hlt]

/-- C1: the source `reserve` handler returns a successful reservation
without ever invoking the persistence routine `save()` (the save counter
is unchanged by a successful Reserve), while `teardown` does invoke it;
evaluated on a concrete run from the fresh state. -/
theorem reserve_omits_save :
    ((reserve saveCfg (initState saveCfg) "a" ⟨1, 1⟩).map (fun out => out.err)) = some none ∧
    ((reserve saveCfg (initState saveCfg) "a" ⟨1, 1⟩).map
      (fun out => out.container.isSome)) = some true ∧
    (initState saveCfg).saveCount = 0 ∧
    ((reserve saveCfg (initState saveCfg) "a" ⟨1, 1⟩).map
      (fun out => out.state.saveCount)) = some 0 ∧
    ((reserve saveCfg (initState saveCfg) "a" ⟨1, 1⟩).map
      (fun out => (teardown saveCfg out.state "a").1.saveCount)) = some 1 := by
  decide

/-- C9 counterexample: at `MinPort = 0`, `NumContainers = 0`,
`NumSecondaryPorts = 0` the `Init` validation reports an error, although in
exact integer arithmetic `MinPort + (NumSecondaryPorts + 2) * NumContainers
- 1 = -1` does not exceed 65535: the `uint64` check underflows. -/
theorem initCheck_wraps_counterexample :
    initCheckFails degenerateCfg = true ∧
    ¬ ((65535 : Int) < (degenerateCfg.minPort : Int) +
        ((degenerateCfg.numSecondaryPorts : Int) + 2) * (degenerateCfg.numContainers : Int) - 1) := by
  decide

/-- C9 (amended): the `Init` validation rejects the configuration exactly
when the exact integer value `MinPort + (NumSecondaryPorts + 2) *
NumContainers - 1` exceeds 65535 or in the degenerate case `MinPort = 0`
and `NumContainers = 0`, where the wrapping `uint64` subtraction
underflows. -/
theorem initCheck_characterization (cfg : Config) (hwf : cfg.Wf) :
    (initCheckFails cfg = true ↔
      ((65535 : Int) < (cfg.minPort : Int) +
          ((cfg.numSecondaryPorts : Int) + 2) * (cfg.numContainers : Int) - 1
        ∨ (cfg.minPort = 0 ∧ cfg.numContainers = 0))) := by
  obtain ⟨hnc, hnsp, hmp, -, -⟩ := hwf
  unfold U16 at hnc hnsp hmp
  have hprod : (cfg.numSecondaryPorts + 2) * cfg.numContainers ≤ 65537 * 65535 :=
    Nat.mul_le_mul (by omega) (by omega)
  have hzero : (cfg.numSecondaryPorts + 2) * cfg.numContainers = 0 ↔
      cfg.numContainers = 0 := by
    rcases Nat.eq_zero_or_pos cfg.numContainers with h | h
    · simp [h]
    · constructor
      · intro habs
        rcases Nat.mul_eq_zero.1 habs with h2 | h2 <;> omega
      · omega
  have hcast : (cfg.minPort : Int) +
      ((cfg.numSecondaryPorts : Int) + 2) * (cfg.numContainers : Int) - 1
      = (cfg.minPort : Int) +
        (((cfg.numSecondaryPorts + 2) * cfg.numContainers : Nat) : Int) - 1 := by
    push_cast
    ring
  simp only [initCheckFails, decide_eq_true_eq]
  rw [hcast, ← hzero]
  generalize (cfg.numSecondaryPorts + 2) * cfg.numContainers = q at hprod ⊢
  unfold UW
  omega

theorem foldl_addW (f : (String × Container) → Nat) :
    ∀ (l : List (String × Container)) (a : Nat), a < UW →
      l.foldl (fun acc p => addW acc (f p)) a = (a + (l.map f).sum) % UW := by
  intro l
  induction l with
  | nil =>
    intro a ha
    simp [Nat.mod_eq_of_lt ha]
  | cons p rest ih =>
    intro a ha
    have hlt : addW a (f p) < UW := by
      unfold addW UW at *
      omega
    simp only [List.foldl_cons, List.map_cons, List.sum_cons]
    rw [ih _ hlt]
    unfold addW
    rw [Nat.mod_add_mod]
    ring_nf

theorem recomputeCPU_eq (l : List (String × Container)) :
    recomputeCPU l = sumCPU l % UW := by
  have h := foldl_addW (fun p => p.2.manifest.cpuShares) l 0 (by unfold UW; omega)
  simpa [recomputeCPU, sumCPU] using h

theorem recomputeMem_eq (l : List (String × Container)) :
    recomputeMem l = sumMem l % UW := by
  have h := foldl_addW (fun p => p.2.manifest.memoryLimit) l 0 (by unfold UW; omega)
  simpa [recomputeMem, sumMem] using h

/-- C8: with no container snapshot the registry starts with an empty map;
with no port snapshot the pool is initialized to the slot indices `0, ...,
NumContainers - 1`; and in all cases both counters are recomputed by
(wrapping `uint`) summation of the manifest fields over the loaded map —
exactly the sums whenever they fit in a `uint`. -/
theorem loadState_spec (cfg : Config)
    (cs : Option (List (String × Container))) (ps : Option (List Nat)) :
    (loadState cfg none ps).containers = [] ∧
    (loadState cfg cs none).ports = List.range cfg.numContainers ∧
    (loadState cfg cs ps).usedCPUShares = sumCPU (cs.getD []) % UW ∧
    (loadState cfg cs ps).usedMemoryLimit = sumMem (cs.getD []) % UW ∧
    (sumCPU (cs.getD []) < UW →
      (loadState cfg cs ps).usedCPUShares = sumCPU (cs.getD [])) ∧
    (sumMem (cs.getD []) < UW →
      (loadState cfg cs ps).usedMemoryLimit = sumMem (cs.getD [])) := by
  refine ⟨rfl, rfl, ?_, ?_, ?_, ?_⟩
  · simp [loadState, recomputeCPU_eq]
  · simp [loadState, recomputeMem_eq]
  · intro h
    simp [loadState, recomputeCPU_eq, Nat.mod_eq_of_lt h]
  · intro h
    simp [loadState, recomputeMem_eq, Nat.mod_eq_of_lt h]

theorem reserve_cases {cfg : Config} {st : RState} {id : String} {m : Manifest}
    {out : ReserveOut} (heq : reserve cfg st id m = some out) :
    (out.state = st ∧ out.container = none ∧ out.err.isSome) ∨
    (∃ port rest,
      st.ports = port :: rest ∧
      st.containers.length < cfg.numContainers ∧
      mapGet st.containers id = none ∧
      addW m.cpuShares st.usedCPUShares ≤ cfg.cpuShares ∧
      addW m.memoryLimit st.usedMemoryLimit ≤ cfg.memoryLimit ∧
      out = ⟨⟨st.containers ++ [(id, mkContainer cfg id m port)], rest,
             addW st.usedCPUShares m.cpuShares, addW st.usedMemoryLimit m.memoryLimit,
             st.saveCount⟩, some (mkContainer cfg id m port), none⟩) := by
  unfold reserve at heq
  split at heq
  · cases heq
    exact Or.inl ⟨rfl, rfl, rfl⟩
  · rename_i h1
    split at heq
    · cases heq
      exact Or.inl ⟨rfl, rfl, rfl⟩
    · rename_i h2
      split at heq
      · cases heq
        exact Or.inl ⟨rfl, rfl, rfl⟩
      · rename_i h3
        split at heq
        · cases heq
          exact Or.inl ⟨rfl, rfl, rfl⟩
        · rename_i h4
          split at heq
          · cases heq
          · rename_i port rest hports
            cases heq
            refine Or.inr ⟨port, rest, hports, Nat.lt_of_not_le h1, ?_,
              Nat.le_of_not_lt h3, Nat.le_of_not_lt h4, rfl⟩
            cases ho : mapGet st.containers id with
            | none => rfl
            | some c =>
              exact absurd (by simp [ho]) h2

theorem slots_append (cfg : Config) (l1 l2 : List (String × Container)) :
    slots cfg (l1 ++ l2) = slots cfg l1 ++ slots cfg l2 := by
  simp [slots]

theorem structInv_reserve {cfg : Config} {st : RState} {id : String} {m : Manifest}
    {out : ReserveOut} (hwf : cfg.Wf) (hinv : StructInv cfg st)
    (heq : reserve cfg st id m = some out) : StructInv cfg out.state := by
  rcases reserve_cases heq with ⟨hst, -, -⟩ | ⟨port, rest, hports, hlen, hnone, -, -, hout⟩
  · rwa [hst]
  · subst hout
    obtain ⟨hnodup, hperm, hforms⟩ := hinv
    have hport : port < cfg.numContainers := by
      have hmem : port ∈ slots cfg st.containers ++ st.ports :=
        List.mem_append_right _ (by rw [hports]; exact List.mem_cons_self _ _)
      exact List.mem_range.1 (hperm.mem_iff.1 hmem)
    have hportU : port < U16 := lt_of_lt_of_le hport (le_of_lt hwf.1)
    have hslot : slotOf cfg (mkContainer cfg id m port) = port := by
      unfold slotOf mkContainer
      exact sub16_add16 hportU
    constructor
    · show ((st.containers ++ [(id, mkContainer cfg id m port)]).map Prod.fst).Nodup
      rw [List.map_append, List.nodup_append]
      refine ⟨hnodup, by simp, ?_⟩
      intro a ha hb
      simp at hb
      subst hb
      exact (mapGet_eq_none_iff _ _).1 hnone ha
    · show List.Perm
        (slots cfg (st.containers ++ [(id, mkContainer cfg id m port)]) ++ rest)
        (List.range cfg.numContainers)
      rw [slots_append]
      have hsing : slots cfg [(id, mkContainer cfg id m port)] = [port] := by
        simp [slots, hslot]
      rw [hsing, List.append_assoc]
      have : ([port] ++ rest) = port :: rest := rfl
      rw [this, ← hports]
      exact hperm
    · intro p hp
      rcases List.mem_append.1 hp with hp | hp
      · exact hforms p hp
      · have hpe : p = (id, mkContainer cfg id m port) := by
          simpa using hp
        subst hpe
        have hslot2 : slotOf cfg (id, mkContainer cfg id m port).2 = port := hslot
        refine ⟨?_, ?_, ?_⟩ <;> (rw [hslot2]; rfl)

theorem structInv_teardown {cfg : Config} {st : RState} (id : String)
    (hinv : StructInv cfg st) : StructInv cfg (teardown cfg st id).1 := by
  obtain ⟨hnodup, hperm, hforms⟩ := hinv
  cases hm : mapGet st.containers id with
  | none =>
    simpa [teardown, hm] using StructInv.mk hnodup hperm hforms
  | some c =>
    obtain ⟨l1, l2, hsplit, hdel⟩ := mapGet_some_split hm
    have hten : (teardown cfg st id).1 =
        { containers := l1 ++ l2
          ports := st.ports ++ [slotOf cfg c]
          usedCPUShares := subW st.usedCPUShares c.manifest.cpuShares
          usedMemoryLimit := subW st.usedMemoryLimit c.manifest.memoryLimit
          saveCount := st.saveCount + 1 } := by
      simp [teardown, hm, hdel, slotOf]
    rw [hten]
    rw [hsplit] at hnodup hperm hforms
    constructor
    · have hsub : List.Sublist ((l1 ++ l2).map Prod.fst)
          ((l1 ++ (id, c) :: l2).map Prod.fst) := by
        apply List.Sublist.map
        exact List.Sublist.append_left (List.sublist_cons_self _ _) l1
      exact hnodup.sublist hsub
    · show List.Perm (slots cfg (l1 ++ l2) ++ (st.ports ++ [slotOf cfg c]))
        (List.range cfg.numContainers)
      rw [slots_append] at hperm ⊢
      have hl : slots cfg ((id, c) :: l2) = slotOf cfg c :: slots cfg l2 := by
        simp [slots]
      rw [hl] at hperm
      refine List.Perm.trans ?_ hperm
      have h0 : List.Perm (st.ports ++ slotOf cfg c :: [])
          (slotOf cfg c :: (st.ports ++ [])) := List.perm_middle
      have h1 : List.Perm (st.ports ++ [slotOf cfg c]) (slotOf cfg c :: st.ports) := by
        simpa using h0
      rw [List.append_assoc (slots cfg l1) (slotOf cfg c :: slots cfg l2) st.ports,
        List.cons_append,
        List.append_assoc (slots cfg l1) (slots cfg l2) (st.ports ++ [slotOf cfg c])]
      apply List.Perm.append_left
      exact (List.Perm.append_left (slots cfg l2) h1).trans List.perm_middle
    · intro p hp
      refine hforms p ?_
      rcases List.mem_append.1 hp with hp | hp
      · exact List.mem_append_left _ hp
      · exact List.mem_append_right _ (List.mem_cons_of_mem _ hp)

theorem reach_structInv (cfg : Config) (P : Manifest → Prop) (hwf : cfg.Wf)
    {st : RState} (h : ReachP cfg P st) : StructInv cfg st := by
  induction h with
  | init =>
    constructor
    · simp [initState, loadState]
    · simp [initState, loadState, slots]
    · simp [initState, loadState]
  | reserveStep hr hP heq ih => exact structInv_reserve hwf ih heq
  | teardownStep id hr ih => exact structInv_teardown id ih

/-- C7: in every reachable registry state the recovered slot indices of
active containers and the free pool are disjoint and together are exactly
the slot range `[0, NumContainers)`; hence the number of active containers
is at most `NumContainers` and the combined capacity is constant. -/
theorem reach_slot_partition (cfg : Config) (st : RState)
    (hwf : cfg.Wf) (h : Reach cfg st) :
    List.Perm (slots cfg st.containers ++ st.ports) (List.range cfg.numContainers) ∧
    (∀ s, s ∈ slots cfg st.containers → s ∉ st.ports) ∧
    (∀ s, (s ∈ slots cfg st.containers ∨ s ∈ st.ports) ↔ s < cfg.numContainers) ∧
    st.containers.length ≤ cfg.numContainers ∧
    st.containers.length + st.ports.length = cfg.numContainers := by
  obtain ⟨hnodup, hperm, -⟩ := reach_structInv cfg _ hwf h
  have hlen := hperm.length_eq
  simp only [List.length_append, List.length_range, slots, List.length_map] at hlen
  have hnd : (slots cfg st.containers ++ st.ports).Nodup :=
    hperm.nodup_iff.2 (List.nodup_range _)
  refine ⟨hperm, ?_, ?_, by omega, by omega⟩
  · exact fun s hs hp => (List.disjoint_of_nodup_append hnd) hs hp
  · intro s
    rw [← List.mem_range (n := cfg.numContainers), ← hperm.mem_iff, List.mem_append]

theorem slot_lt {cfg : Config} {st : RState} (hinv : StructInv cfg st)
    {k : String} {c : Container} (hp : (k, c) ∈ st.containers) :
    slotOf cfg c < cfg.numContainers := by
  have hmem : slotOf cfg c ∈ slots cfg st.containers :=
    List.mem_map_of_mem (fun p => slotOf cfg p.2) hp
  exact List.mem_range.1 (hinv.slotsPerm.mem_iff.1 (List.mem_append_left _ hmem))

theorem bound_weaken {cfg : Config}
    (hb : cfg.minPort + (cfg.numSecondaryPorts + 2) * cfg.numContainers - 1 ≤ 65535)
    (hnc : 0 < cfg.numContainers) :
    cfg.minPort + (cfg.numSecondaryPorts + 2) * cfg.numContainers ≤ 65536 := by
  have h1 : 1 * 1 ≤ (cfg.numSecondaryPorts + 2) * cfg.numContainers :=
    Nat.mul_le_mul (by omega) hnc
  omega

theorem primary_exact {cfg : Config} (hwf : cfg.Wf)
    (hU : cfg.minPort + (cfg.numSecondaryPorts + 2) * cfg.numContainers ≤ 65536)
    {s : Nat} (hs : s < cfg.numContainers) :
    add16 cfg.minPort s = cfg.minPort + s := by
  have h2 : 2 * cfg.numContainers ≤ (cfg.numSecondaryPorts + 2) * cfg.numContainers :=
    Nat.mul_le_mul_right _ (by omega)
  unfold add16 U16
  omega

theorem ssh_exact {cfg : Config} (hwf : cfg.Wf)
    (hU : cfg.minPort + (cfg.numSecondaryPorts + 2) * cfg.numContainers ≤ 65536)
    {s : Nat} (hs : s < cfg.numContainers) :
    add16 (add16 cfg.minPort cfg.numContainers) s
      = cfg.minPort + cfg.numContainers + s := by
  have h2 : 2 * cfg.numContainers ≤ (cfg.numSecondaryPorts + 2) * cfg.numContainers :=
    Nat.mul_le_mul_right _ (by omega)
  unfold add16 U16
  omega

theorem secondary_exact {cfg : Config} (hwf : cfg.Wf)
    (hU : cfg.minPort + (cfg.numSecondaryPorts + 2) * cfg.numContainers ≤ 65536)
    {s i : Nat} (hs : s < cfg.numContainers) (hi : i < cfg.numSecondaryPorts) :
    add16 (add16 cfg.minPort (mul16 cfg.numContainers (add16 i 2))) s
      = cfg.minPort + cfg.numContainers * (i + 2) + s := by
  have hle : cfg.numSecondaryPorts + 2 ≤
      (cfg.numSecondaryPorts + 2) * cfg.numContainers :=
    Nat.le_mul_of_pos_right _ (by omega)
  have h1 : cfg.numContainers * (i + 2) + cfg.numContainers ≤
      cfg.numContainers * (cfg.numSecondaryPorts + 2) := by
    have h0 : cfg.numContainers * (i + 3) ≤
        cfg.numContainers * (cfg.numSecondaryPorts + 2) :=
      Nat.mul_le_mul_left _ (by omega)
    have h0e : cfg.numContainers * (i + 3)
        = cfg.numContainers * (i + 2) + cfg.numContainers := by ring
    omega
  have h2 : cfg.numContainers * (cfg.numSecondaryPorts + 2)
      = (cfg.numSecondaryPorts + 2) * cfg.numContainers := Nat.mul_comm _ _
  have hi2 : add16 i 2 = i + 2 := by
    unfold add16 U16
    omega
  rw [hi2]
  unfold add16 mul16 U16
  generalize cfg.numContainers * (i + 2) = t at h1 ⊢
  omega

theorem band_inj {nc k1 k2 s1 s2 : Nat} (hs1 : s1 < nc) (hs2 : s2 < nc)
    (h : k1 * nc + s1 = k2 * nc + s2) : s1 = s2 := by
  have e1 : (s1 + k1 * nc) % nc = s1 % nc := Nat.add_mul_mod_self_right s1 k1 nc
  have e2 : (s2 + k2 * nc) % nc = s2 % nc := Nat.add_mul_mod_self_right s2 k2 nc
  have hmod : s1 % nc = s2 % nc := by
    rw [← e1, ← e2]
    congr 1
    omega
  rwa [Nat.mod_eq_of_lt hs1, Nat.mod_eq_of_lt hs2] at hmod

theorem port_value_form {cfg : Config} (hwf : cfg.Wf)
    (hb : cfg.minPort + (cfg.numSecondaryPorts + 2) * cfg.numContainers - 1 ≤ 65535)
    {st : RState} (hinv : StructInv cfg st)
    {idp : String} {cp : Container} (hp : (idp, cp) ∈ st.containers)
    {v : Nat} (hv : v ∈ portsOf cp) :
    ∃ k, k ≤ cfg.numSecondaryPorts + 1 ∧
      v = cfg.minPort + k * cfg.numContainers + slotOf cfg cp := by
  have hs : slotOf cfg cp < cfg.numContainers := slot_lt hinv hp
  have hU := bound_weaken hb (by omega)
  have hforms := hinv.portFormulas (idp, cp) hp
  have hpp : cp.primaryPort = add16 cfg.minPort (slotOf cfg cp) := hforms.1
  have hssh : cp.sshPort
      = add16 (add16 cfg.minPort cfg.numContainers) (slotOf cfg cp) := hforms.2.1
  have hsec : cp.secondaryPorts = (List.range cfg.numSecondaryPorts).map
      (fun i => add16 (add16 cfg.minPort (mul16 cfg.numContainers (add16 i 2)))
        (slotOf cfg cp)) := hforms.2.2
  unfold portsOf at hv
  rcases List.mem_cons.1 hv with rfl | hv
  · exact ⟨0, by omega, by rw [hpp, primary_exact hwf hU hs]; ring⟩
  rcases List.mem_cons.1 hv with rfl | hv
  · exact ⟨1, by omega, by rw [hssh, ssh_exact hwf hU hs]; ring⟩
  · rw [hsec] at hv
    obtain ⟨i, hi, hvi⟩ := List.mem_map.1 hv
    have hi2 : i < cfg.numSecondaryPorts := List.mem_range.1 hi
    refine ⟨i + 2, by omega, ?_⟩
    rw [← hvi, secondary_exact hwf hU hs hi2]
    ring

/-- C4: under the `Init` precondition, no two simultaneously active
containers in a reachable registry state share any port: every port of one
(primary, SSH or secondary) differs from every port of the other. -/
theorem reach_no_port_overlap (cfg : Config) (st : RState)
    (hwf : cfg.Wf)
    (hb : cfg.minPort + (cfg.numSecondaryPorts + 2) * cfg.numContainers - 1 ≤ 65535)
    (h : Reach cfg st)
    (id1 id2 : String) (c1 c2 : Container) (hne : id1 ≠ id2)
    (h1 : mapGet st.containers id1 = some c1)
    (h2 : mapGet st.containers id2 = some c2) :
    ∀ v ∈ portsOf c1, v ∉ portsOf c2 := by
  have hinv := reach_structInv cfg _ hwf h
  obtain ⟨la, lb, hsplit1, -⟩ := mapGet_some_split h1
  obtain ⟨lc, ld, hsplit2, -⟩ := mapGet_some_split h2
  have hm1 : (id1, c1) ∈ st.containers := by
    rw [hsplit1]
    exact List.mem_append_right _ (List.mem_cons_self _ _)
  have hm2 : (id2, c2) ∈ st.containers := by
    rw [hsplit2]
    exact List.mem_append_right _ (List.mem_cons_self _ _)
  have hslotsnd : (st.containers.map (fun p => slotOf cfg p.2)).Nodup :=
    ((hinv.slotsPerm.nodup_iff.2 (List.nodup_range _))).of_append_left
  have hsne : slotOf cfg c1 ≠ slotOf cfg c2 := by
    intro heqs
    have heqp : (id1, c1) = (id2, c2) :=
      List.inj_on_of_nodup_map hslotsnd hm1 hm2 heqs
    exact hne (congrArg Prod.fst heqp)
  intro v hv1 hv2
  obtain ⟨k1, hk1, he1⟩ := port_value_form hwf hb hinv hm1 hv1
  obtain ⟨k2, hk2, he2⟩ := port_value_form hwf hb hinv hm2 hv2
  have hs1 : slotOf cfg c1 < cfg.numContainers := slot_lt hinv hm1
  have hs2 : slotOf cfg c2 < cfg.numContainers := slot_lt hinv hm2
  have heq12 : k1 * cfg.numContainers + slotOf cfg c1
      = k2 * cfg.numContainers + slotOf cfg c2 := by omega
  exact hsne (band_inj hs1 hs2 heq12)

/-- C3: a successful Reserve that pops slot index `s < NumContainers`
stores exactly `primary_port = MinPort + s`, `ssh_port = MinPort +
NumContainers + s` and `secondary_ports[i] = MinPort + NumContainers *
(i + 2) + s` for `i < NumSecondaryPorts`, under the `Init` port-range
precondition (giving slots 0 and 3 of the `MinPort = 1000`,
`NumContainers = 4`, `NumSecondaryPorts = 2` example the ports 1000, 1004,
[1008, 1012] and 1003, 1007, [1011, 1015]). -/
theorem reserve_port_assignment (cfg : Config) (st : RState) (id : String)
    (m : Manifest) (s : Nat) (rest : List Nat) (out : ReserveOut) (c : Container)
    (hwf : cfg.Wf)
    (hb : cfg.minPort + (cfg.numSecondaryPorts + 2) * cfg.numContainers - 1 ≤ 65535)
    (hports : st.ports = s :: rest)
    (hs : s < cfg.numContainers)
    (hr : reserve cfg st id m = some out)
    (hc : out.container = some c) :
    c.primaryPort = cfg.minPort + s ∧
    c.sshPort = cfg.minPort + cfg.numContainers + s ∧
    c.secondaryPorts = (List.range cfg.numSecondaryPorts).map
      (fun i => cfg.minPort + cfg.numContainers * (i + 2) + s) := by
  rcases reserve_cases hr with ⟨-, hcont, -⟩ | ⟨port, rest0, hports0, -, -, -, -, hout⟩
  · rw [hcont] at hc
    cases hc
  · subst hout
    have hc2 : some (mkContainer cfg id m port) = some c := hc
    have hcm : mkContainer cfg id m port = c := Option.some.inj hc2
    have hcons : port :: rest0 = s :: rest := hports0.symm.trans hports
    have hps : port = s := (List.cons.injEq _ _ _ _ ▸ hcons : _ ∧ _).1
    subst hps
    subst hcm
    have hU := bound_weaken hb (by omega)
    refine ⟨?_, ?_, ?_⟩
    · show add16 cfg.minPort port = cfg.minPort + port
      exact primary_exact hwf hU hs
    · show add16 (add16 cfg.minPort cfg.numContainers) port
        = cfg.minPort + cfg.numContainers + port
      exact ssh_exact hwf hU hs
    · show (List.range cfg.numSecondaryPorts).map
          (fun i => add16 (add16 cfg.minPort (mul16 cfg.numContainers (add16 i 2))) port)
        = (List.range cfg.numSecondaryPorts).map
          (fun i => cfg.minPort + cfg.numContainers * (i + 2) + port)
      apply List.map_congr_left
      intro i hi
      exact secondary_exact hwf hU hs (List.mem_range.1 hi)

/-- Witness for C3: the two spec examples, derived from the theorem. -/
theorem reserve_port_assignment_witness :
    portCont0.primaryPort = 1000 ∧ portCont0.sshPort = 1004 ∧
    portCont0.secondaryPorts = [1008, 1012] ∧
    portCont3.primaryPort = 1003 ∧ portCont3.sshPort = 1007 ∧
    portCont3.secondaryPorts = [1011, 1015] := by
  have h0 := reserve_port_assignment portCfg (initState portCfg) "a" ⟨1, 1⟩ 0
    [1, 2, 3] portOut0 portCont0 portCfg_wf (by decide) (by decide) (by decide)
    (by decide) (by decide)
  have h3 := reserve_port_assignment portCfg portOutC.state "d" ⟨1, 1⟩ 3
    [] portOut3 portCont3 portCfg_wf (by decide) (by decide) (by decide)
    (by decide) (by decide)
  refine ⟨?_, ?_, ?_, ?_, ?_, ?_⟩
  · rw [h0.1]
    decide
  · rw [h0.2.1]
    decide
  · rw [h0.2.2]
    decide
  · rw [h3.1]
    decide
  · rw [h3.2.1]
    decide
  · rw [h3.2.2]
    decide

/-- C10: the free pool is FIFO: a successful Reserve pops the slot at the
head of the pool (and the stored container's recovered slot index
`PrimaryPort - MinPort` is exactly that popped slot), while a successful
Teardown appends the recovered slot at the tail. -/
theorem pool_fifo (cfg : Config) (st : RState) (id : String) (m : Manifest) :
    (∀ s rest out, s < U16 → st.ports = s :: rest →
      reserve cfg st id m = some out → out.err = none →
      out.state.ports = rest ∧ ∀ c, out.container = some c → slotOf cfg c = s) ∧
    (∀ c, mapGet st.containers id = some c →
      (teardown cfg st id).1.ports = st.ports ++ [slotOf cfg c]) := by
  constructor
  · intro s rest out hsU hports hr herr
    rcases reserve_cases hr with ⟨-, -, hsome⟩ | ⟨port, rest0, hports0, -, -, -, -, hout⟩
    · rw [herr] at hsome
      cases hsome
    · subst hout
      have hcons : port :: rest0 = s :: rest := hports0.symm.trans hports
      have hpc : port = s ∧ rest0 = rest := by
        constructor
        · exact (List.cons.injEq _ _ _ _ ▸ hcons : _ ∧ _).1
        · exact (List.cons.injEq _ _ _ _ ▸ hcons : _ ∧ _).2
      obtain ⟨hps, hrr⟩ := hpc
      subst hps
      subst hrr
      refine ⟨rfl, ?_⟩
      intro c hc
      have hc2 : some (mkContainer cfg id m port) = some c := hc
      have hcm : mkContainer cfg id m port = c := Option.some.inj hc2
      subst hcm
      show sub16 (add16 cfg.minPort port) cfg.minPort = port
      exact sub16_add16 hsU
  · intro c hm
    simp [teardown, hm, slotOf]

theorem sumCPU_append (l1 l2 : List (String × Container)) :
    sumCPU (l1 ++ l2) = sumCPU l1 + sumCPU l2 := by
  simp [sumCPU]

theorem sumMem_append (l1 l2 : List (String × Container)) :
    sumMem (l1 ++ l2) = sumMem l1 + sumMem l2 := by
  simp [sumMem]

theorem sumCPU_cons (k : String) (c : Container) (l : List (String × Container)) :
    sumCPU ((k, c) :: l) = c.manifest.cpuShares + sumCPU l := by
  simp [sumCPU]

theorem sumMem_cons (k : String) (c : Container) (l : List (String × Container)) :
    sumMem ((k, c) :: l) = c.manifest.memoryLimit + sumMem l := by
  simp [sumMem]

/-- C2 (amended): for runs in which every requested manifest satisfies
`cpu_shares + CPUShares < 2^64` and `memory_limit + MemoryLimit < 2^64`
(so the `uint` additions of the resource checks cannot wrap), after every
operation `used_cpu_shares` equals the exact sum of `manifest.cpu_shares`
over active containers and is at most `CPUShares`, and likewise for
memory. Without that restriction the claim fails (see the
counterexample). -/
theorem reach_counter_invariant (cfg : Config) (P : Manifest → Prop) (st : RState)
    (hwf : cfg.Wf)
    (HP : ∀ m, P m → m.cpuShares + cfg.cpuShares < UW ∧
      m.memoryLimit + cfg.memoryLimit < UW)
    (h : ReachP cfg P st) :
    st.usedCPUShares = sumCPU st.containers ∧ sumCPU st.containers ≤ cfg.cpuShares ∧
    st.usedMemoryLimit = sumMem st.containers ∧
    sumMem st.containers ≤ cfg.memoryLimit := by
  obtain ⟨-, -, -, hccap, hmcap⟩ := hwf
  induction h with
  | init =>
    refine ⟨?_, ?_, ?_, ?_⟩ <;>
      simp [initState, loadState, recomputeCPU, recomputeMem, sumCPU, sumMem]
  | reserveStep hr hP heq ih =>
    rename_i st0 id m out
    obtain ⟨ihc, ihcb, ihme, ihmeb⟩ := ih
    rcases reserve_cases heq with ⟨hst, -, -⟩ |
      ⟨port, rest, hports, hlen, hnone, hcpu, hmem, hout⟩
    · rw [hst]
      exact ⟨ihc, ihcb, ihme, ihmeb⟩
    · subst hout
      obtain ⟨hc64, hm64⟩ := HP m hP
      have haddc : addW m.cpuShares st0.usedCPUShares
          = m.cpuShares + st0.usedCPUShares := by
        apply addW_exact
        omega
      have haddm : addW m.memoryLimit st0.usedMemoryLimit
          = m.memoryLimit + st0.usedMemoryLimit := by
        apply addW_exact
        omega
      rw [haddc] at hcpu
      rw [haddm] at hmem
      have hsc : sumCPU (st0.containers ++ [(id, mkContainer cfg id m port)])
          = sumCPU st0.containers + m.cpuShares := by
        rw [sumCPU_append, sumCPU_cons]
        simp [sumCPU, mkContainer]
      have hsm : sumMem (st0.containers ++ [(id, mkContainer cfg id m port)])
          = sumMem st0.containers + m.memoryLimit := by
        rw [sumMem_append, sumMem_cons]
        simp [sumMem, mkContainer]
      refine ⟨?_, ?_, ?_, ?_⟩
      · show addW st0.usedCPUShares m.cpuShares = _
        rw [hsc]
        rw [show addW st0.usedCPUShares m.cpuShares
            = st0.usedCPUShares + m.cpuShares from addW_exact (by omega)]
        omega
      · rw [hsc]
        omega
      · show addW st0.usedMemoryLimit m.memoryLimit = _
        rw [hsm]
        rw [show addW st0.usedMemoryLimit m.memoryLimit
            = st0.usedMemoryLimit + m.memoryLimit from addW_exact (by omega)]
        omega
      · rw [hsm]
        omega
  | teardownStep id hr ih =>
    rename_i st0
    obtain ⟨ihc, ihcb, ihme, ihmeb⟩ := ih
    cases hm : mapGet st0.containers id with
    | none =>
      simpa [teardown, hm] using ⟨ihc, ihcb, ihme, ihmeb⟩
    | some c =>
      obtain ⟨l1, l2, hsplit, hdel⟩ := mapGet_some_split hm
      have hten : (teardown cfg st0 id).1 =
          { containers := l1 ++ l2
            ports := st0.ports ++ [slotOf cfg c]
            usedCPUShares := subW st0.usedCPUShares c.manifest.cpuShares
            usedMemoryLimit := subW st0.usedMemoryLimit c.manifest.memoryLimit
            saveCount := st0.saveCount + 1 } := by
        simp [teardown, hm, hdel, slotOf]
      rw [hten]
      rw [hsplit] at ihc ihcb ihme ihmeb
      have hsumc : sumCPU (l1 ++ (id, c) :: l2)
          = sumCPU l1 + c.manifest.cpuShares + sumCPU l2 := by
        rw [sumCPU_append, sumCPU_cons]
        omega
      have hsumm : sumMem (l1 ++ (id, c) :: l2)
          = sumMem l1 + c.manifest.memoryLimit + sumMem l2 := by
        rw [sumMem_append, sumMem_cons]
        omega
      refine ⟨?_, ?_, ?_, ?_⟩
      · show subW st0.usedCPUShares c.manifest.cpuShares = _
        rw [sumCPU_append]
        rw [show subW st0.usedCPUShares c.manifest.cpuShares
            = st0.usedCPUShares - c.manifest.cpuShares from
          subW_exact (by omega) (by omega)]
        omega
      · rw [sumCPU_append]
        omega
      · show subW st0.usedMemoryLimit c.manifest.memoryLimit = _
        rw [sumMem_append]
        rw [show subW st0.usedMemoryLimit c.manifest.memoryLimit
            = st0.usedMemoryLimit - c.manifest.memoryLimit from
          subW_exact (by omega) (by omega)]
        omega
      · rw [sumMem_append]
        omega

/-- Witness for the amended C2, at the fresh state of `saveCfg` with the
manifest predicate bounding both fields by 1. -/
theorem reach_counter_invariant_witness :
    (initState saveCfg).usedCPUShares = sumCPU (initState saveCfg).containers ∧
    sumCPU (initState saveCfg).containers ≤ saveCfg.cpuShares ∧
    (initState saveCfg).usedMemoryLimit = sumMem (initState saveCfg).containers ∧
    sumMem (initState saveCfg).containers ≤ saveCfg.memoryLimit := by
  refine reach_counter_invariant saveCfg
    (fun m => m.cpuShares ≤ 1 ∧ m.memoryLimit ≤ 1) (initState saveCfg)
    saveCfg_wf ?_ ReachP.init
  intro m hm
  obtain ⟨h1, h2⟩ := hm
  show m.cpuShares + 1 < UW ∧ m.memoryLimit + 1 < UW
  unfold UW
  constructor <;> omega

/-- C2 counterexample: with caps of 10, reserving manifests of 5 and then
`2^64 - 5` CPU shares passes the checks (the `uint` addition wraps to 0), leaving
`used_cpu_shares = 0` while the exact sum over active containers is
`2^64`; tearing down the first container then leaves `used_cpu_shares =
2^64 - 5 > 10`, violating both the sum equality and the cap bound on a
reachable state. -/
theorem counters_wrap_counterexample :
    Reach wrapCfg wrapOut2.state ∧
    wrapOut2.state.usedCPUShares ≠ sumCPU wrapOut2.state.containers ∧
    Reach wrapCfg wrapState3 ∧
    wrapCfg.cpuShares < wrapState3.usedCPUShares := by
  have h1 : reserve wrapCfg (initState wrapCfg) "a" ⟨5, 0⟩ = some wrapOut1 := by
    decide
  have h2 : reserve wrapCfg wrapOut1.state "b" wrapManifest = some wrapOut2 := by
    decide
  have hr2 : ReachP wrapCfg (fun _ => True) wrapOut2.state :=
    ReachP.reserveStep (ReachP.reserveStep ReachP.init trivial h1) trivial h2
  exact ⟨hr2, by decide, ReachP.teardownStep "a" hr2, by decide⟩

/-- Witness for C5: on a zero-slot configuration the capacity check fires
first and the state is returned unchanged. -/
theorem reserve_check_order_witness :
    reserve degenerateCfg (initState degenerateCfg) "x" ⟨1, 1⟩
      = some ⟨initState degenerateCfg, none, some .capacityExceeded⟩ :=
  (reserve_check_order degenerateCfg (initState degenerateCfg) "x" ⟨1, 1⟩).1
    (by decide)

/-- Witness for C6: tearing down the active container `"a"` of the
wrapping run returns true and appends its recovered slot to the pool. -/
theorem teardown_spec_witness :
    (teardown wrapCfg wrapOut1.state "a").2 = true ∧
    (teardown wrapCfg wrapOut1.state "a").1.ports
      = wrapOut1.state.ports ++ [sub16 wrapCont1.primaryPort wrapCfg.minPort] :=
  ⟨((teardown_spec wrapCfg wrapOut1.state "a").2.2 wrapCont1 (by decide)).1,
   ((teardown_spec wrapCfg wrapOut1.state "a").2.2 wrapCont1 (by decide)).2.2.1⟩

/-- Witness for C7 at the reachable two-reservation state of the wrapping
run. -/
theorem reach_slot_partition_witness :
    List.Perm (slots wrapCfg wrapOut2.state.containers ++ wrapOut2.state.ports)
      (List.range wrapCfg.numContainers) ∧
    wrapOut2.state.containers.length + wrapOut2.state.ports.length
      = wrapCfg.numContainers := by
  have h1 : reserve wrapCfg (initState wrapCfg) "a" ⟨5, 0⟩ = some wrapOut1 := by
    decide
  have h2 : reserve wrapCfg wrapOut1.state "b" wrapManifest = some wrapOut2 := by
    decide
  have h := reach_slot_partition wrapCfg wrapOut2.state wrapCfg_wf
    (ReachP.reserveStep (ReachP.reserveStep ReachP.init trivial h1) trivial h2)
  exact ⟨h.1, h.2.2.2.2⟩

/-- Witness for C4: the primary port 1000 of container `"a"` is not among
the ports of the simultaneously active container `"b"`. -/
theorem reach_no_port_overlap_witness : (1000 : Nat) ∉ portsOf wrapCont2 := by
  have h1 : reserve wrapCfg (initState wrapCfg) "a" ⟨5, 0⟩ = some wrapOut1 := by
    decide
  have h2 : reserve wrapCfg wrapOut1.state "b" wrapManifest = some wrapOut2 := by
    decide
  have hr : ReachP wrapCfg (fun _ => True) wrapOut2.state :=
    ReachP.reserveStep (ReachP.reserveStep ReachP.init trivial h1) trivial h2
  exact reach_no_port_overlap wrapCfg wrapOut2.state wrapCfg_wf (by decide) hr
    "a" "b" wrapCont1 wrapCont2 (by decide) (by decide) (by decide) 1000 (by decide)

/-- Witness for the amended C9 at the example configuration. -/
theorem initCheck_characterization_witness :
    (initCheckFails portCfg = true ↔
      ((65535 : Int) < (portCfg.minPort : Int) +
          ((portCfg.numSecondaryPorts : Int) + 2) * (portCfg.numContainers : Int) - 1
        ∨ (portCfg.minPort = 0 ∧ portCfg.numContainers = 0))) :=
  initCheck_characterization portCfg portCfg_wf

/-- Witness for C8: the counters are recomputed exactly on a small
one-container snapshot. -/
theorem loadState_spec_witness :
    (loadState wrapCfg (some [("a", wrapCont1)]) (some [1])).usedCPUShares
      = sumCPU [("a", wrapCont1)] :=
  (loadState_spec wrapCfg (some [("a", wrapCont1)]) (some [1])).2.2.2.2.1
    (by decide)

/-- Witness for C10 on the first reservation of the wrapping run: slot 0
is popped from the head and recovered from the stored container. -/
theorem pool_fifo_witness :
    wrapOut1.state.ports = [1] ∧ slotOf wrapCfg wrapCont1 = 0 := by
  have h := (pool_fifo wrapCfg (initState wrapCfg) "a" ⟨5, 0⟩).1 0 [1] wrapOut1
    (by decide) (by decide) (by decide) (by decide)
  exact ⟨h.1, h.2 wrapCont1 (by decide)⟩

end Atlantis
